import Mathlib

/-!
Verification of the PredictiveSpeaking repository's prediction pipeline.

This file shallowly embeds the code of `src/backend/ragPredictor.js`,
`src/backend/azurePredictor.js`, the chunking / knowledge-base building code
of `src/backend/gpt4oTranscribe.js` (the `RAGBuilder` class), and the
prediction-source selection logic of `handleTranscript` in
`src/backend/server.js`.

Modelling conventions:
- JavaScript numbers are modelled by `JSVal`: a finite rational, `NaN`, or a
  signed infinity.  Division, subtraction and comparisons follow the
  IEEE-754 rules that JavaScript uses (`0/0 = NaN`, comparisons with `NaN`
  are false), with real arithmetic on rationals standing in for float
  arithmetic (rounding is irrelevant to the claims proved here).
- `Math.sqrt` is modelled by an arbitrary function `f : ℚ → ℚ`
  constrained, where a proof needs it, by `SqrtSpec f`: on non-negative
  inputs it vanishes exactly at `0`.  Only this property of the square root
  is ever used by the code paths under verification.
- JavaScript strings are modelled as `List Char` (`Str`); `.trim()`,
  `.split(/\s+/)`, `.includes()` and friends are modelled on such lists.
  The string-splitting helpers are stated for the trimmed strings they are
  applied to in the source.
- Network services (the embedding endpoint and the chat-completion
  endpoint) are oracles: their outcomes are passed to the embedded
  functions as explicit `Option` / `Except` parameters.  A `none` /
  `.error` outcome models a thrown or caught service failure.
-/

namespace RagSpec

/-- JavaScript number: a finite value, NaN, or a signed infinity. -/
inductive JSVal where
  | num (q : ℚ)
  | nan
  | posInf
  | negInf
deriving DecidableEq, Repr

/-- JavaScript division of finite values: `x / 0` is `NaN` when `x = 0`
and a signed infinity otherwise; elsewhere it is exact division. -/
def jsDiv (x y : ℚ) : JSVal :=
  if y = 0 then
    if x = 0 then .nan
    else if 0 < x then .posInf
    else .negInf
  else .num (x / y)

/-- JavaScript subtraction on `JSVal` (used by the sort comparator
`(a, b) => b.score - a.score`). -/
def JSVal.sub : JSVal → JSVal → JSVal
  | .num a, .num b => .num (a - b)
  | .nan, _ => .nan
  | _, .nan => .nan
  | .posInf, .posInf => .nan
  | .posInf, _ => .posInf
  | .negInf, .negInf => .nan
  | .negInf, _ => .negInf
  | .num _, .posInf => .negInf
  | .num _, .negInf => .posInf

/-- Whether a JavaScript number is strictly positive (`NaN` is not). -/
def JSVal.isPos : JSVal → Bool
  | .num a => decide (0 < a)
  | .posInf => true
  | _ => false

/-- JavaScript `<` on numbers: any comparison involving `NaN` is false. -/
def JSVal.ltB : JSVal → JSVal → Bool
  | .num a, .num b => decide (a < b)
  | .nan, _ => false
  | _, .nan => false
  | .negInf, .negInf => false
  | .negInf, _ => true
  | .posInf, _ => false
  | .num _, .posInf => true
  | .num _, .negInf => false

/-- Whether a `JSVal` is a finite number. -/
def JSVal.isNum : JSVal → Bool
  | .num _ => true
  | _ => false

/-- Constraint on the model of `Math.sqrt`: on non-negative inputs it is
zero exactly on zero.  This is the only property of the square root the
verified code paths depend on. -/
def SqrtSpec (f : ℚ → ℚ) : Prop :=
  ∀ x : ℚ, 0 ≤ x → (f x = 0 ↔ x = 0)

/-- Sum of pairwise products over the common length of two vectors; the
`dotProduct` accumulator of `cosineSimilarity` (the source loops `i` over
`vecA.length` after the lengths are known to be equal). -/
def dotP (a b : List ℚ) : ℚ :=
  ((a.zip b).map (fun p => p.1 * p.2)).sum

/-- Embedding of `RAGPredictor.cosineSimilarity` (ragPredictor.js:82-96).
A `none` vector models a JavaScript null/undefined argument.  The source:
mismatched lengths (or a null vector) return `0`; otherwise it returns
`dotProduct / (Math.sqrt(normA) * Math.sqrt(normB))` under JavaScript
division. -/
def cosineSimilarity (f : ℚ → ℚ) (vecA vecB : Option (List ℚ)) : JSVal :=
  match vecA, vecB with
  | some a, some b =>
    if a.length ≠ b.length then .num 0
    else jsDiv (dotP a b) (f (dotP a a) * f (dotP b b))
  | _, _ => .num 0

/-- Knowledge-base chunk as stored in the JSON file: a text and its
embedding vector (`none` models a missing/null `embedding` field). -/
structure Chunk where
  text : String
  embedding : Option (List ℚ)
deriving DecidableEq, Repr

/-- Element of the array built by `searchRelevantChunks`:
`{text, score}`. -/
structure SearchResult where
  text : String
  score : JSVal
deriving DecidableEq, Repr

/-- Order used to model `scores.sort((a, b) => b.score - a.score)`:
`a` may stay before `b` unless the comparator `b.score - a.score` is
strictly positive (per ECMAScript, a comparator result that is `NaN` or
`≤ 0` keeps `a` before `b`; `Array.prototype.sort` is stable, hence the
model sorts with a stable merge sort). -/
def sortLe (a b : SearchResult) : Bool :=
  !(JSVal.sub b.score a.score).isPos

/-- Scored chunk list built by `searchRelevantChunks`
(ragPredictor.js:111-114): each chunk paired with its similarity to the
query embedding. -/
def scoredOf (f : ℚ → ℚ) (queryEmbedding : List ℚ) (kb : List Chunk) :
    List SearchResult :=
  kb.map (fun chunk =>
    { text := chunk.text
      score := cosineSimilarity f (some queryEmbedding) chunk.embedding })

/-- Embedding of `RAGPredictor.searchRelevantChunks`
(ragPredictor.js:101-119).  `embedOutcome` is the outcome of the
`createEmbedding` call for the query (`none` models a failed embedding:
`createEmbedding` catches its own errors and returns null). -/
def searchRelevantChunks (f : ℚ → ℚ) (modelLoaded : Bool) (kb : List Chunk)
    (embedOutcome : Option (List ℚ)) (topK : ℕ) : List SearchResult :=
  if !modelLoaded || kb.length == 0 then []
  else
    match embedOutcome with
    | none => []
    | some queryEmbedding =>
      ((scoredOf f queryEmbedding kb).mergeSort sortLe).take topK

/-- JavaScript strings as character lists. -/
abbrev Str := List Char

/-- Model of `String.prototype.trim`: drop leading and trailing
whitespace. -/
def trimL (s : Str) : Str :=
  ((s.dropWhile Char.isWhitespace).reverse.dropWhile Char.isWhitespace).reverse

/-- Split a character list at every character satisfying `p`, keeping
empty pieces (the model of JavaScript `split` on a single-character
separator class). -/
def splitP (p : Char → Bool) : Str → List Str
  | [] => [[]]
  | c :: cs =>
    if p c then [] :: splitP p cs
    else
      match splitP p cs with
      | [] => [[c]]
      | h :: t => (c :: h) :: t

/-- Model of `s.split(/\s+/)` for the trimmed strings it is applied to in
the source: runs of whitespace collapse, the empty string yields `[""]`
(as in JavaScript). -/
def wsSplitJS (s : Str) : List Str :=
  if s = [] then [[]]
  else (splitP Char.isWhitespace s).filter (fun w => w ≠ [])

/-- Decidable "t starts with s" on character lists. -/
def startsWithL : Str → Str → Bool
  | [], _ => true
  | _ :: _, [] => false
  | a :: as, b :: bs => a = b && startsWithL as bs

/-- Model of JavaScript `s.includes(sub)`: some suffix of `s` starts with
`sub` (`includes("")` is true). -/
def containsSub (s sub : Str) : Bool :=
  match s with
  | [] => startsWithL sub []
  | _ :: cs => startsWithL sub s || containsSub cs sub

/-- Return value of `RAGPredictor.predict` on the non-null path
(ragPredictor.js:201-208). -/
structure RagResult where
  word : Option Str
  confidence : JSVal
  reasoning : String
  rawResponse : Str
  relevantChunks : ℕ
  topSimilarity : JSVal
deriving DecidableEq, Repr

/-- Characters stripped from the end of an English prediction by
`predictedText.replace(/[。、.,!?;:"'「」『』（）()[\]]+$/g, '')`. -/
def enPunct : Str :=
  ['。', '、', '.', ',', '!', '?', ';', ':', '"', Char.ofNat 39,
   '「', '」', '『', '』', '（', '）', '(', ')', '[', ']']

/-- Strip the trailing run of punctuation characters (the model of the
`/[...]+$/` replace above). -/
def stripTrailingPunct (s : Str) : Str :=
  (s.reverse.dropWhile (fun c => c ∈ enPunct)).reverse

/-- Word-extraction step of `RAGPredictor.predict`
(ragPredictor.js:197-199): for Japanese, the first whitespace-delimited
token of the trimmed response; for other languages, the response with
trailing punctuation stripped, trimmed. -/
def extractWord (language : String) (predictedText : Str) : Str :=
  if language = "ja" then trimL ((wsSplitJS predictedText).headD [])
  else trimL (stripTrailingPunct predictedText)

/-- Embedding of `RAGPredictor.predict` (ragPredictor.js:124-214).
`completion` is the outcome of the chat-completion call (`.error` models a
thrown service error, caught by the surrounding try/catch which returns
null).  The second component records whether the completion service was
called at all. -/
def predictRag (f : ℚ → ℚ) (modelLoaded : Bool) (kb : List Chunk)
    (embedOutcome : Option (List ℚ)) (completion : Except Unit Str)
    (language : String) : Option RagResult × Bool :=
  if !modelLoaded then (none, false)
  else if (searchRelevantChunks f modelLoaded kb embedOutcome 3).isEmpty
      || ((searchRelevantChunks f modelLoaded kb embedOutcome 3).headD
            ⟨"", .num 0⟩).score.ltB (.num (3/10)) then
    (none, false)
  else
    match completion with
    | .error _ => (none, true)
    | .ok content =>
      (some
        { word :=
            if extractWord language (trimL content) = [] then none
            else some (extractWord language (trimL content))
          confidence := ((searchRelevantChunks f modelLoaded kb embedOutcome 3).headD
            ⟨"", .num 0⟩).score
          reasoning := "rag_prediction"
          rawResponse := trimL content
          relevantChunks := (searchRelevantChunks f modelLoaded kb embedOutcome 3).length
          topSimilarity := ((searchRelevantChunks f modelLoaded kb embedOutcome 3).headD
            ⟨"", .num 0⟩).score },
        true)

/-- Return value of `AzurePredictor.predict` (azurePredictor.js). -/
structure AzureResult where
  word : Option Str
  confidence : JSVal
  reasoning : String
  rawResponse : Str
deriving DecidableEq, Repr

/-- Embedding of `AzurePredictor.predict` (azurePredictor.js:29-111).
On a service error the catch block returns the `error` record.  On
success, the first whitespace token of the trimmed response is the
candidate word; if both the candidate and the last whitespace-delimited
token of the trimmed context are non-empty and the candidate contains
that last token (`word.includes(lastWord)`), the `duplicate_avoided`
record is returned; otherwise the word (empty ⇒ null, per
`word || null`). -/
def azurePredict (context : Str) (completion : Except Unit Str) : AzureResult :=
  match completion with
  | .error _ =>
    { word := none, confidence := .num 0, reasoning := "error", rawResponse := [] }
  | .ok content =>
    if trimL ((wsSplitJS (trimL content)).headD []) ≠ [] ∧
        (wsSplitJS (trimL context)).getLastD [] ≠ [] ∧
        containsSub (trimL ((wsSplitJS (trimL content)).headD []))
          ((wsSplitJS (trimL context)).getLastD []) then
      { word := none, confidence := .num 0, reasoning := "duplicate_avoided",
        rawResponse := trimL content }
    else
      { word :=
          if trimL ((wsSplitJS (trimL content)).headD []) = [] then none
          else some (trimL ((wsSplitJS (trimL content)).headD []))
        confidence :=
          if trimL ((wsSplitJS (trimL content)).headD []) = [] then .num 0
          else .num (8/10)
        reasoning := "llm_prediction"
        rawResponse := trimL content }

/-- Mutable state of a `RAGPredictor` instance touched by
`loadKnowledgeBase`. -/
structure RagState where
  knowledgeBase : List Chunk
  modelLoaded : Bool
  modelName : Option String
  language : String
deriving DecidableEq, Repr

/-- Content of a knowledge-base JSON file; each field is optional, as the
source defends against missing fields (`data.chunks || []`,
`data.language || 'ja'`). -/
structure KBFile where
  chunks : Option (List Chunk)
  modelName : Option String
  language : Option String

/-- Outcome of the filesystem access in `loadKnowledgeBase`: the file may
be missing (`fs.existsSync` false), present but unreadable or not valid
JSON (read/parse throws), or parsed. -/
inductive FileOutcome where
  | missing
  | unreadable
  | parsed (data : KBFile)

/-- Embedding of `RAGPredictor.loadKnowledgeBase` (ragPredictor.js:33-60):
a missing file returns `false` before any state is touched; a read/parse
failure is caught, sets `modelLoaded := false` (all other fields keep
their prior values) and returns `false`; a parsed file installs the new
chunks, model name and language, sets `modelLoaded := true` and returns
`true`. -/
def loadKnowledgeBase (st : RagState) (file : FileOutcome) : RagState × Bool :=
  match file with
  | .missing => (st, false)
  | .unreadable => ({ st with modelLoaded := false }, false)
  | .parsed data =>
    ({ knowledgeBase := data.chunks.getD []
       modelLoaded := true
       modelName := data.modelName
       language := data.language.getD "ja" }, true)

/-- Chunk of a knowledge base under construction by `RAGBuilder`
(gpt4oTranscribe.js, second source file): a text and its embedding. -/
structure BuiltChunk where
  text : Str
  embedding : List ℚ
deriving DecidableEq, Repr

/-- Statistics record written by `RAGBuilder.saveKnowledgeBase`. -/
structure KBStats where
  totalChunks : ℕ
  avgChunkLength : JSVal
deriving DecidableEq, Repr

/-- Embedding of the `stats` computation of `RAGBuilder.saveKnowledgeBase`
(gpt4oTranscribe.js:270-273):
`totalChunks = chunks.length` and
`avgChunkLength = chunks.reduce((s, c) => s + c.text.length, 0) / chunks.length`
under JavaScript division. -/
def saveKnowledgeBaseStats (chunks : List BuiltChunk) : KBStats :=
  { totalChunks := chunks.length
    avgChunkLength :=
      jsDiv (chunks.foldl (fun s c => s + (c.text.length : ℚ)) 0)
        (chunks.length : ℚ) }

/-- Sentence separators used by `RAGBuilder.chunkText`: `/[。！？\n]+/`
for Japanese, `/[.!?\n]+/` otherwise. -/
def sentenceSep (language : String) (c : Char) : Bool :=
  if language = "ja" then c = '。' || c = '！' || c = '？' || c = '\n'
  else c = '.' || c = '!' || c = '?' || c = '\n'

/-- Sentence list of `chunkText` (gpt4oTranscribe.js:179-181): split on
the separator class and keep pieces with non-empty trim.  Splitting on
single separators and filtering agrees with the source's split on `+`-runs
of separators, since the extra pieces a run produces are empty and are
removed by the same filter. -/
def sentencesOf (language : String) (text : Str) : List Str :=
  (splitP (sentenceSep language) text).filter (fun s => (trimL s).length > 0)

/-- Model of JavaScript `words.slice(-n)` for a non-negative `n`:
`slice(-0)` is `slice(0)` (the whole array), and for `n ≥ 1` it is the
trailing `min n (length)` elements. -/
def jsSliceNeg (l : List Str) (n : ℕ) : List Str :=
  if n = 0 then l else l.drop (l.length - n)

/-- Loop state of `chunkText`: the current buffer and the chunks emitted
so far. -/
structure ChunkState where
  cur : Str
  acc : List Str
deriving DecidableEq, Repr

/-- Loop body of `RAGBuilder.chunkText` (gpt4oTranscribe.js:185-199): skip
blank sentences; if appending the sentence would overflow `chunkSize` and
the buffer is non-empty, flush the trimmed buffer and seed the next buffer
with `words.slice(-Math.floor(chunkOverlap / 10))` of the old buffer's
whitespace-split words, joined by spaces, followed by the sentence;
otherwise append the sentence (space-separated) to the buffer. -/
def chunkStep (chunkSize chunkOverlap : ℕ) (st : ChunkState) (sentence : Str) :
    ChunkState :=
  if trimL sentence = [] then st
  else if (st.cur ++ trimL sentence).length > chunkSize ∧ st.cur.length > 0 then
    { cur := List.intercalate [' ']
        (jsSliceNeg (wsSplitJS st.cur) (chunkOverlap / 10)) ++ [' '] ++ trimL sentence
      acc := st.acc ++ [trimL st.cur] }
  else
    { st with
        cur := st.cur ++ (if st.cur ≠ [] then [' '] else []) ++ trimL sentence }

/-- Embedding of `RAGBuilder.chunkText` (gpt4oTranscribe.js:177-206). -/
def chunkText (language : String) (chunkSize chunkOverlap : ℕ) (text : Str) :
    List Str :=
  let sentences := sentencesOf language text
  let st := sentences.foldl (chunkStep chunkSize chunkOverlap) ⟨[], []⟩
  if (trimL st.cur).length > 0 then st.acc ++ [trimL st.cur] else st.acc

/-- JavaScript truthiness of an optional string (`!x.word` is true for
null and for the empty string). -/
def jsTruthyStr : Option Str → Bool
  | none => false
  | some s => s ≠ []

/-- Observable outcome of one `handleTranscript` call: the prediction sent
to the client (word and source), and which predictors were invoked. -/
structure SelectorOutcome where
  word : Option Str
  source : Option String
  ragCalled : Bool
  plainCalled : Bool
deriving DecidableEq, Repr

/-- Fallback path of `handleTranscript` (server.js:689-704): call the
plain predictor; a truthy word is sent with source `gpt-4.1-mini`, a falsy
word means no prediction is sent. -/
def plainFallback (ragCalled : Bool) (text : Str)
    (plainCompletion : Except Unit Str) : SelectorOutcome :=
  if jsTruthyStr (azurePredict text plainCompletion).word then
    ⟨(azurePredict text plainCompletion).word, some "gpt-4.1-mini", ragCalled, true⟩
  else ⟨none, none, ragCalled, true⟩

/-- Embedding of the prediction-source selection of `handleTranscript`
(server.js:664-713): if `ragPredictor.modelLoaded`, `ragPredictor.predict`
is called first and a result with a truthy word is used with source `rag`
(the plain predictor is skipped); otherwise the fallback
(`plainFallback`) calls `azurePredictor.predict` and a falsy word means no
prediction is sent. -/
def handleTranscript (f : ℚ → ℚ) (kb : List Chunk) (ragLoaded : Bool)
    (embedOutcome : Option (List ℚ)) (ragCompletion plainCompletion : Except Unit Str)
    (language : String) (text : Str) : SelectorOutcome :=
  if trimL text = [] then ⟨none, none, false, false⟩
  else if ragLoaded then
    match (predictRag f ragLoaded kb embedOutcome ragCompletion language).1 with
    | some r =>
      if jsTruthyStr r.word then ⟨r.word, some "rag", true, false⟩
      else plainFallback true text plainCompletion
    | none => plainFallback true text plainCompletion
  else plainFallback false text plainCompletion

/-! ### Helper lemmas about dot products -/

theorem dotP_cons (x y : ℚ) (xs ys : List ℚ) :
    dotP (x :: xs) (y :: ys) = x * y + dotP xs ys := by
  simp [dotP]

theorem dotP_nil_left (b : List ℚ) : dotP [] b = 0 := by simp [dotP]

theorem dotP_nil_right (a : List ℚ) : dotP a [] = 0 := by
  cases a <;> simp [dotP]

theorem dotP_self_nonneg (a : List ℚ) : 0 ≤ dotP a a := by
  induction a with
  | nil => simp [dotP]
  | cons x xs ih =>
    rw [dotP_cons]
    have := mul_self_nonneg x
    linarith

theorem dotP_self_eq_zero (a : List ℚ) (h : dotP a a = 0) : ∀ x ∈ a, x = 0 := by
  induction a with
  | nil => simp
  | cons x xs ih =>
    rw [dotP_cons] at h
    have h1 := mul_self_nonneg x
    have h2 := dotP_self_nonneg xs
    have hx : x * x = 0 := by linarith
    have hxs : dotP xs xs = 0 := by linarith
    intro y hy
    rcases List.mem_cons.mp hy with rfl | hy
    · exact mul_self_eq_zero.mp hx
    · exact ih hxs y hy

theorem dotP_eq_zero_left (a b : List ℚ) (h : ∀ x ∈ a, x = 0) : dotP a b = 0 := by
  induction a generalizing b with
  | nil => simp [dotP]
  | cons x xs ih =>
    cases b with
    | nil => exact dotP_nil_right _
    | cons y ys =>
      rw [dotP_cons, h x (List.mem_cons_self x xs),
        ih _ (fun z hz => h z (List.mem_cons_of_mem x hz))]
      ring

theorem dotP_comm (a b : List ℚ) : dotP a b = dotP b a := by
  induction a generalizing b with
  | nil => rw [dotP_nil_left, dotP_nil_right]
  | cons x xs ih =>
    cases b with
    | nil => rw [dotP_nil_left, dotP_nil_right]
    | cons y ys => rw [dotP_cons, dotP_cons, ih, mul_comm]

/-! ### Claim C10: loadKnowledgeBase error handling -/

/-- Claim C10: calling `loadKnowledgeBase` with a path whose file does not
exist returns `false` and leaves the entire store state unchanged, so a
previously loaded knowledge base stays active; if the file exists but its
content fails to parse, the call returns `false` with `modelLoaded` set to
`false` (deactivating any previously active knowledge base) and all other
fields unchanged. -/
theorem loadKnowledgeBase_error_paths (st : RagState) :
    loadKnowledgeBase st .missing = (st, false) ∧
    (loadKnowledgeBase st .unreadable).2 = false ∧
    (loadKnowledgeBase st .unreadable).1.modelLoaded = false ∧
    (loadKnowledgeBase st .unreadable).1.knowledgeBase = st.knowledgeBase ∧
    (loadKnowledgeBase st .unreadable).1.modelName = st.modelName ∧
    (loadKnowledgeBase st .unreadable).1.language = st.language := by
  refine ⟨rfl, rfl, rfl, rfl, rfl, rfl⟩

/-! ### Claim C5: predict fails soft on service failures -/

theorem searchRelevantChunks_embed_failed (f : ℚ → ℚ) (ml : Bool)
    (kb : List Chunk) (topK : ℕ) :
    searchRelevantChunks f ml kb none topK = [] := by
  unfold searchRelevantChunks
  split
  · rfl
  · rfl

/-- Claim C5: `predict()` never raises; a failure of the embedding service
(`createEmbedding` returning null) or of the completion service (a thrown
error, caught by the try/catch) makes `predict()` return the null result,
so the caller's fallback always receives a defined outcome.  (The model is
a total function, so "never raises" is expressed by the function being
defined on every input and every service outcome.) -/
theorem predictRag_fails_soft (f : ℚ → ℚ) (ml : Bool) (kb : List Chunk)
    (language : String) :
    (∀ completion, (predictRag f ml kb none completion language).1 = none) ∧
    (∀ embedOutcome,
      (predictRag f ml kb embedOutcome (.error ()) language).1 = none) := by
  constructor
  · intro completion
    cases ml with
    | false => rfl
    | true =>
      simp only [predictRag, searchRelevantChunks_embed_failed,
        Bool.not_true, Bool.false_eq_true, if_false, List.isEmpty_nil,
        Bool.true_or, if_true]
  · intro embedOutcome
    cases ml with
    | false => rfl
    | true =>
      simp only [predictRag, Bool.not_true, Bool.false_eq_true, if_false]
      split
      · rfl
      · rfl

/-! ### Claim C1: the 0.3 retrieval gate -/

/-- Claim C1: with a loaded knowledge base, if the similarity search
returns no results, or the top result's score is strictly below `0.3`,
`predict()` returns the null result without calling the completion
service; if the top score is `≥ 0.3` (boundary inclusive), it proceeds to
call the completion service. -/
theorem predictRag_gate (f : ℚ → ℚ) (kb : List Chunk)
    (embedOutcome : Option (List ℚ)) (completion : Except Unit Str)
    (language : String) :
    (searchRelevantChunks f true kb embedOutcome 3 = [] →
      predictRag f true kb embedOutcome completion language = (none, false)) ∧
    (∀ r rest q, searchRelevantChunks f true kb embedOutcome 3 = r :: rest →
      r.score = .num q →
      ((q < 3/10 →
        predictRag f true kb embedOutcome completion language = (none, false)) ∧
       (3/10 ≤ q →
        (predictRag f true kb embedOutcome completion language).2 = true))) := by
  constructor
  · intro h
    simp only [predictRag, h, Bool.not_true, Bool.false_eq_true, if_false,
      List.isEmpty_nil, Bool.true_or, if_true]
  · intro r rest q h hq
    constructor
    · intro hlt
      simp only [predictRag, h, Bool.not_true, Bool.false_eq_true, if_false]
      rw [if_pos]
      simp only [List.isEmpty_cons, List.headD_cons, hq, JSVal.ltB,
        Bool.false_or, decide_eq_true_eq]
      exact hlt
    · intro hge
      simp only [predictRag, h, Bool.not_true, Bool.false_eq_true, if_false]
      rw [if_neg]
      · cases completion <;> rfl
      · simp only [List.isEmpty_cons, List.headD_cons, hq, JSVal.ltB,
          Bool.false_or, decide_eq_true_eq]
        exact not_lt.mpr hge

/-- Witness for C1 at a concrete input: a one-chunk knowledge base whose
top score is `1 ≥ 0.3`, so the completion service is called. -/
theorem searchRelevantChunks_one_witness :
    searchRelevantChunks id true [⟨"a", some [1]⟩] (some [1]) 3 =
      [⟨"a", JSVal.num 1⟩] := by
  have h1 : dotP [(1 : ℚ)] [1] = 1 := by norm_num [dotP]
  simp [searchRelevantChunks, scoredOf, cosineSimilarity, h1, jsDiv]

theorem predictRag_gate_witness :
    (3 : ℚ)/10 ≤ 1 ∧
    (predictRag id true [⟨"a", some [1]⟩] (some [1])
        (.ok ['h', 'i']) "ja").2 = true := by
  refine ⟨by norm_num, ?_⟩
  exact ((predictRag_gate id [⟨"a", some [1]⟩] (some [1])
      (.ok ['h', 'i']) "ja").2 ⟨"a", JSVal.num 1⟩ [] 1
      searchRelevantChunks_one_witness rfl).2 (by norm_num)

/-! ### Claim C3 (corrected): cosineSimilarity guards -/

/-- Counterexample to claim C3 as stated: the code has no zero-norm
special case.  With the square-root model instantiated at a function
satisfying `SqrtSpec`, the zero vector `[0]` against `[1]` (equal lengths,
zero norm on the left) produces JavaScript `0 / 0 = NaN`, not `0`. -/
theorem cosineSimilarity_zero_norm_nan :
    SqrtSpec id ∧
    cosineSimilarity id (some [0]) (some [1]) = .nan ∧
    JSVal.nan ≠ .num 0 := by
  refine ⟨fun x _ => Iff.rfl, ?_, by decide⟩
  have h0 : dotP [(0 : ℚ)] [1] = 0 := by norm_num [dotP]
  have h1 : dotP [(0 : ℚ)] [0] = 0 := by norm_num [dotP]
  simp [cosineSimilarity, h0, h1, jsDiv]

/-- Amended claim C3: mismatched lengths give similarity `0`, and a
null/undefined vector gives `0`; the function is total (never throws).
But a zero-norm vector with matching lengths yields `NaN` (JavaScript
`0/0`), not `0`: the zero-norm case is not special-cased.  Stated for any
model `f` of `Math.sqrt` satisfying `SqrtSpec`. -/
theorem cosineSimilarity_guards (f : ℚ → ℚ) (hf : SqrtSpec f) :
    (∀ a b : List ℚ, a.length ≠ b.length →
      cosineSimilarity f (some a) (some b) = .num 0) ∧
    (∀ v, cosineSimilarity f none v = .num 0) ∧
    (∀ v, cosineSimilarity f v none = .num 0) ∧
    (∀ a b : List ℚ, a.length = b.length →
      (dotP a a = 0 ∨ dotP b b = 0) →
      cosineSimilarity f (some a) (some b) = .nan) := by
  refine ⟨?_, fun v => rfl, fun v => by cases v <;> rfl, ?_⟩
  · intro a b hab
    simp only [cosineSimilarity, if_pos hab]
  · intro a b hab hzero
    have hdot : dotP a b = 0 := by
      rcases hzero with h | h
      · exact dotP_eq_zero_left a b (dotP_self_eq_zero a h)
      · rw [dotP_comm]
        exact dotP_eq_zero_left b a (dotP_self_eq_zero b h)
    have hden : f (dotP a a) * f (dotP b b) = 0 := by
      rcases hzero with h | h
      · rw [h, (hf 0 le_rfl).mpr rfl, zero_mul]
      · rw [h, (hf 0 le_rfl).mpr rfl, mul_zero]
    simp only [cosineSimilarity]
    rw [if_neg (by simp [hab]), hdot, hden]
    simp [jsDiv]

/-- Witness for the amended C3 at concrete inputs, with `f := id` (which
satisfies `SqrtSpec`). -/
theorem cosineSimilarity_guards_witness :
    cosineSimilarity id (some [1, 2]) (some [1]) = .num 0 ∧
    cosineSimilarity id (some [0, 0]) (some [3, 4]) = .nan := by
  constructor
  · exact (cosineSimilarity_guards id (fun x _ => Iff.rfl)).1 [1, 2] [1]
      (by decide)
  · exact (cosineSimilarity_guards id (fun x _ => Iff.rfl)).2.2.2 [0, 0] [3, 4]
      (by decide) (Or.inl (by norm_num [dotP]))

/-! ### Claim C6 (corrected): knowledge-base stats -/

/-- Counterexample to claim C6 as stated: on an empty chunk sequence the
source computes `0 / 0`, which is JavaScript `NaN`, not `0` — there is no
divide-by-zero guard in `saveKnowledgeBase`. -/
theorem saveKnowledgeBaseStats_empty_nan :
    saveKnowledgeBaseStats [] = ⟨0, .nan⟩ ∧ JSVal.nan ≠ .num 0 := by
  refine ⟨by decide, by decide⟩

theorem foldl_add_len (chunks : List BuiltChunk) (init : ℚ) :
    chunks.foldl (fun s c => s + (c.text.length : ℚ)) init =
      init + (chunks.map (fun c => (c.text.length : ℚ))).sum := by
  induction chunks generalizing init with
  | nil => simp
  | cons c cs ih => simp [ih, add_assoc]

/-- Amended claim C6: `stats.totalChunks` equals the number of chunks, and
for a non-empty chunk sequence `stats.avgChunkLength` is the mean of
`text.length` across the chunks; but for the empty sequence the average is
`NaN` (JavaScript `0/0`), not `0` — the division is unguarded. -/
theorem saveKnowledgeBaseStats_spec (chunks : List BuiltChunk) :
    (saveKnowledgeBaseStats chunks).totalChunks = chunks.length ∧
    (chunks ≠ [] →
      (saveKnowledgeBaseStats chunks).avgChunkLength =
        .num ((chunks.map (fun c => (c.text.length : ℚ))).sum / chunks.length)) ∧
    (chunks = [] → (saveKnowledgeBaseStats chunks).avgChunkLength = .nan) := by
  refine ⟨rfl, ?_, ?_⟩
  · intro hne
    have hlen : (chunks.length : ℚ) ≠ 0 := by
      simpa using hne
    simp only [saveKnowledgeBaseStats, jsDiv, if_neg hlen, foldl_add_len,
      zero_add]
  · rintro rfl
    decide

/-- Witness for the amended C6 at a concrete two-chunk input: the average
of lengths 3 and 1 is 2. -/
theorem saveKnowledgeBaseStats_spec_witness :
    (saveKnowledgeBaseStats [⟨['a', 'b', 'c'], []⟩, ⟨['d'], []⟩]).totalChunks = 2 ∧
    (saveKnowledgeBaseStats [⟨['a', 'b', 'c'], []⟩, ⟨['d'], []⟩]).avgChunkLength =
      .num 2 := by
  constructor
  · exact (saveKnowledgeBaseStats_spec _).1
  · have h := (saveKnowledgeBaseStats_spec
      [⟨['a', 'b', 'c'], []⟩, ⟨['d'], []⟩]).2.1 (by decide)
    rw [h]
    norm_num

/-! ### Claim C9 (corrected): duplicate suppression in the plain predictor -/

/-- Counterexample to claim C9 as stated: for context `"今日はいい天気"`
(which contains no whitespace) the last whitespace-delimited token is the
entire string, and the predicted word `"天気"` does not contain it, so the
code does NOT suppress the prediction: it returns `word = "天気"` with
`reasoning = "llm_prediction"`, not `duplicate_avoided`. -/
theorem azurePredict_tail_not_suppressed :
    azurePredict "今日はいい天気".toList (.ok "天気".toList) =
      { word := some "天気".toList, confidence := .num (8/10),
        reasoning := "llm_prediction", rawResponse := "天気".toList } ∧
    "llm_prediction" ≠ "duplicate_avoided" := by
  refine ⟨?_, by decide⟩
  simp only [azurePredict]
  rw [if_neg (by decide)]
  rfl

/-- Amended claim C9: the plain predictor suppresses a prediction exactly
when the predicted word CONTAINS the last whitespace-delimited token of
the context as a substring (`word.includes(lastWord)`, both non-empty),
returning `word = null`, `reasoning = duplicate_avoided`.  For the context
`"今日はいい天気"` the last token is the whole string (there is no
whitespace), so the predicted `"天気"` is NOT suppressed; a context such
as `"いい 天気"` with predicted `"天気"` IS suppressed. -/
theorem azurePredict_duplicate_rule (context content : Str)
    (hw : trimL ((wsSplitJS (trimL content)).headD []) ≠ [])
    (hlw : (wsSplitJS (trimL context)).getLastD [] ≠ [])
    (hsub : containsSub (trimL ((wsSplitJS (trimL content)).headD []))
        ((wsSplitJS (trimL context)).getLastD []) = true) :
    azurePredict context (.ok content) =
      { word := none, confidence := .num 0, reasoning := "duplicate_avoided",
        rawResponse := trimL content } := by
  simp only [azurePredict]
  rw [if_pos ⟨hw, hlw, hsub⟩]

/-- Witness for the amended C9: context `"いい 天気"` has last token
`"天気"`, which the predicted `"天気"` contains, so the prediction is
suppressed. -/
theorem azurePredict_duplicate_rule_witness :
    azurePredict "いい 天気".toList (.ok "天気".toList) =
      { word := none, confidence := .num 0, reasoning := "duplicate_avoided",
        rawResponse := "天気".toList } := by
  have h := azurePredict_duplicate_rule "いい 天気".toList "天気".toList
    (by decide) (by decide) (by decide)
  rw [h]
  rfl

/-! ### Claim C2: prediction source selection -/

@[simp] theorem plainFallback_ragCalled (rcld : Bool) (text : Str)
    (pcomp : Except Unit Str) : (plainFallback rcld text pcomp).ragCalled = rcld := by
  simp only [plainFallback]
  split
  · rfl
  · rfl

@[simp] theorem plainFallback_plainCalled (rcld : Bool) (text : Str)
    (pcomp : Except Unit Str) : (plainFallback rcld text pcomp).plainCalled = true := by
  simp only [plainFallback]
  split
  · rfl
  · rfl

theorem predictRag_word_ne_nil (f : ℚ → ℚ) (ml : Bool) (kb : List Chunk)
    (eo : Option (List ℚ)) (c : Except Unit Str) (lang : String)
    (r : RagResult) (w : Str)
    (hr : (predictRag f ml kb eo c lang).1 = some r) (hw : r.word = some w) :
    w ≠ [] := by
  unfold predictRag at hr
  split at hr
  · exact absurd hr (by simp)
  · split at hr
    · exact absurd hr (by simp)
    · cases c with
      | error e => exact absurd hr (by simp)
      | ok content =>
        simp only [Option.some.injEq] at hr
        subst hr
        simp only at hw
        split at hw
        · exact absurd hw (by simp)
        · rename_i hne
          rw [Option.some.injEq] at hw
          subst hw
          exact hne

/-- Claim C2: when a knowledge base is loaded, `handleTranscript` calls
the RAG predictor first, and a non-null word from it is used with
`source = "rag"` and the plain predictor is not called; when no knowledge
base is loaded, the RAG predictor is never invoked and the plain predictor
is used directly. -/
theorem handleTranscript_selector (f : ℚ → ℚ) (kb : List Chunk)
    (eo : Option (List ℚ)) (rc pc : Except Unit Str) (lang : String)
    (text : Str) (ht : trimL text ≠ []) :
    ((handleTranscript f kb true eo rc pc lang text).ragCalled = true) ∧
    (∀ r w, (predictRag f true kb eo rc lang).1 = some r → r.word = some w →
      (handleTranscript f kb true eo rc pc lang text).word = some w ∧
      (handleTranscript f kb true eo rc pc lang text).source = some "rag" ∧
      (handleTranscript f kb true eo rc pc lang text).plainCalled = false) ∧
    ((handleTranscript f kb false eo rc pc lang text).ragCalled = false ∧
     (handleTranscript f kb false eo rc pc lang text).plainCalled = true ∧
     (jsTruthyStr (azurePredict text pc).word = true →
        (handleTranscript f kb false eo rc pc lang text).word =
          (azurePredict text pc).word ∧
        (handleTranscript f kb false eo rc pc lang text).source =
          some "gpt-4.1-mini")) := by
  refine ⟨?_, ?_, ?_, ?_, ?_⟩
  · rcases hp : (predictRag f true kb eo rc lang).1 with _ | r
    · simp [handleTranscript, if_neg ht, hp]
    · simp only [handleTranscript, if_neg ht, hp]
      split
      · split
        · rfl
        · simp
      · exact absurd trivial (by assumption)
  · intro r w hr hw
    have hwne : w ≠ [] := predictRag_word_ne_nil f true kb eo rc lang r w hr hw
    simp [handleTranscript, if_neg ht, hr, hw, jsTruthyStr, hwne]
  · simp [handleTranscript, if_neg ht]
  · simp [handleTranscript, if_neg ht]
  · intro htr
    simp [handleTranscript, if_neg ht, plainFallback, htr]

/-- Witness for C2 at concrete inputs: with no knowledge base loaded, the
plain predictor is used directly and its word is sent with source
`gpt-4.1-mini`. -/
theorem handleTranscript_selector_witness :
    (handleTranscript id [] false none (.ok []) (.ok ['y', 'o']) "ja"
        ['h', 'i']).ragCalled = false ∧
    (handleTranscript id [] false none (.ok []) (.ok ['y', 'o']) "ja"
        ['h', 'i']).plainCalled = true ∧
    (handleTranscript id [] false none (.ok []) (.ok ['y', 'o']) "ja"
        ['h', 'i']).word = some ['y', 'o'] ∧
    (handleTranscript id [] false none (.ok []) (.ok ['y', 'o']) "ja"
        ['h', 'i']).source = some "gpt-4.1-mini" := by
  have h := (handleTranscript_selector id [] none (.ok []) (.ok ['y', 'o'])
    "ja" ['h', 'i'] (by decide)).2.2
  have hw := h.2.2 (by decide)
  refine ⟨h.1, h.2.1, ?_, hw.2⟩
  rw [hw.1]
  decide

/-! ### Claim C8 (corrected): chunk overlap seeding -/

/-- Counterexample to claim C8 as stated: with `chunkOverlap = 0` the
source computes `words.slice(-Math.floor(0 / 10)) = words.slice(-0) =
words.slice(0)`, which is the WHOLE word array, not 0 words.  On input
`"abc. def."` with `chunkSize = 5` and `chunkOverlap = 0`, the second
chunk is `"abc def"` (the entire flushed buffer is prepended), not
`"def"`. -/
theorem chunkText_zero_overlap_whole_buffer :
    chunkText "en" 5 0 "abc. def.".toList =
      ["abc".toList, "abc def".toList] ∧
    "abc def".toList ≠ "def".toList := by
  refine ⟨by decide, by decide⟩

theorem jsSliceNeg_eq_rtake (l : List Str) (n : ℕ) (hn : n ≠ 0) :
    jsSliceNeg l n = (l.reverse.take n).reverse := by
  have h := List.reverse_take (l := l.reverse) (n := n)
  simp only [List.reverse_reverse, List.length_reverse] at h
  rw [jsSliceNeg, if_neg hn, ← h]

/-- Amended claim C8: on every flush inside `chunkText`, the next buffer
is seeded with `words.slice(-floor(chunkOverlap / 10))` of the just-
flushed buffer's whitespace-split words, prepended to the next sentence.
For `floor(chunkOverlap / 10) ≥ 1` this is the trailing
`min(floor(chunkOverlap / 10), wordCount)` words; but for
`floor(chunkOverlap / 10) = 0` (i.e. `chunkOverlap < 10`) JavaScript
`slice(-0)` is `slice(0)`, so the ENTIRE word list of the just-flushed
buffer is prepended — not 0 words. -/
theorem chunkStep_flush (chunkSize chunkOverlap : ℕ) (st : ChunkState)
    (sentence : Str)
    (hs : trimL sentence ≠ [])
    (hflush : (st.cur ++ trimL sentence).length > chunkSize ∧ st.cur.length > 0) :
    (chunkStep chunkSize chunkOverlap st sentence).acc =
      st.acc ++ [trimL st.cur] ∧
    (chunkStep chunkSize chunkOverlap st sentence).cur =
      List.intercalate [' ']
        (jsSliceNeg (wsSplitJS st.cur) (chunkOverlap / 10)) ++ [' '] ++
        trimL sentence ∧
    (chunkOverlap / 10 = 0 →
      jsSliceNeg (wsSplitJS st.cur) (chunkOverlap / 10) = wsSplitJS st.cur) ∧
    (1 ≤ chunkOverlap / 10 →
      jsSliceNeg (wsSplitJS st.cur) (chunkOverlap / 10) =
        ((wsSplitJS st.cur).reverse.take (chunkOverlap / 10)).reverse ∧
      (jsSliceNeg (wsSplitJS st.cur) (chunkOverlap / 10)).length =
        min (chunkOverlap / 10) (wsSplitJS st.cur).length) := by
  refine ⟨?_, ?_, ?_, ?_⟩
  · simp only [chunkStep, if_neg hs, if_pos hflush]
  · simp only [chunkStep, if_neg hs, if_pos hflush]
  · intro h0
    simp [jsSliceNeg, h0]
  · intro h1
    have hne : chunkOverlap / 10 ≠ 0 := by omega
    refine ⟨jsSliceNeg_eq_rtake _ _ hne, ?_⟩
    simp only [jsSliceNeg, if_neg hne, List.length_drop]
    omega

/-- Witness for the amended C8: flushing the buffer `"aa bb"` with
`chunkOverlap = 17` (`floor(17/10) = 1`) seeds the next buffer with the
single trailing word `"bb"`. -/
theorem chunkStep_flush_witness :
    (chunkStep 3 17 ⟨"aa bb".toList, []⟩ "cc".toList).acc = ["aa bb".toList] ∧
    (chunkStep 3 17 ⟨"aa bb".toList, []⟩ "cc".toList).cur = "bb cc".toList := by
  have h := chunkStep_flush 3 17 ⟨"aa bb".toList, []⟩ "cc".toList
    (by decide) (by decide)
  constructor
  · rw [h.1]
    decide
  · rw [h.2.1]
    decide

/-! ### Claim C7: chunkText edge cases -/

theorem dropWhile_dWhile (p : Char → Bool) (l : Str) :
    (l.dropWhile p).dropWhile p = l.dropWhile p := by
  induction l with
  | nil => rfl
  | cons c cs ih =>
    rw [List.dropWhile_cons]
    by_cases hp : p c
    · rw [if_pos hp]
      exact ih
    · rw [if_neg hp, List.dropWhile_cons, if_neg hp]

theorem head_not_of_dropWhile_self {p : Char → Bool} {c : Char} {cs : Str}
    (h : (c :: cs).dropWhile p = c :: cs) : ¬ p c = true := by
  intro hp
  rw [List.dropWhile_cons, if_pos hp] at h
  have hle : (cs.dropWhile p).length ≤ cs.length :=
    (List.dropWhile_suffix (l := cs) p).sublist.length_le
  have hlen := congrArg List.length h
  simp only [List.length_cons] at hlen
  omega

theorem dropWhile_take_self {p : Char → Bool} {l : Str}
    (h : l.dropWhile p = l) (k : ℕ) : (l.take k).dropWhile p = l.take k := by
  cases l with
  | nil => simp
  | cons c cs =>
    cases k with
    | zero => simp
    | succ k =>
      have hc := head_not_of_dropWhile_self h
      rw [List.take_succ_cons, List.dropWhile_cons, if_neg hc]

theorem trim_core (p : Char → Bool) (l : Str) (hl : l.dropWhile p = l) :
    ((l.reverse.dropWhile p).reverse).dropWhile p =
      (l.reverse.dropWhile p).reverse := by
  obtain ⟨t, ht⟩ := List.dropWhile_suffix (p := p) (l := l.reverse)
  have hpre : (l.reverse.dropWhile p).reverse <+: l :=
    ⟨t.reverse, by rw [← List.reverse_append, ht, List.reverse_reverse]⟩
  rw [List.prefix_iff_eq_take.mp hpre]
  exact dropWhile_take_self hl _

theorem trimL_dropWhile (s : Str) :
    (trimL s).dropWhile Char.isWhitespace = trimL s :=
  trim_core Char.isWhitespace (s.dropWhile Char.isWhitespace)
    (dropWhile_dWhile _ _)

theorem trimL_rev_dropWhile (s : Str) :
    (trimL s).reverse.dropWhile Char.isWhitespace = (trimL s).reverse := by
  show ((((s.dropWhile Char.isWhitespace).reverse.dropWhile
      Char.isWhitespace).reverse).reverse).dropWhile Char.isWhitespace =
      (((s.dropWhile Char.isWhitespace).reverse.dropWhile
        Char.isWhitespace).reverse).reverse
  rw [List.reverse_reverse]
  exact dropWhile_dWhile _ _

theorem trimL_idem (s : Str) : trimL (trimL s) = trimL s := by
  show (((trimL s).dropWhile Char.isWhitespace).reverse.dropWhile
      Char.isWhitespace).reverse = trimL s
  rw [trimL_dropWhile, trimL_rev_dropWhile, List.reverse_reverse]

theorem trimL_eq_nil (s : Str)
    (h : ∀ c ∈ s, Char.isWhitespace c = true) : trimL s = [] := by
  have h1 : s.dropWhile Char.isWhitespace = [] :=
    List.dropWhile_eq_nil_iff.mpr h
  show ((s.dropWhile Char.isWhitespace).reverse.dropWhile
    Char.isWhitespace).reverse = []
  rw [h1]
  rfl

theorem all_ws_of_trimL_nil (s : Str) (h : trimL s = []) :
    ∀ c ∈ s, Char.isWhitespace c = true := by
  have h2 : (s.dropWhile Char.isWhitespace).reverse.dropWhile
      Char.isWhitespace = [] := by
    have h3 := congrArg List.reverse h
    rw [trimL, List.reverse_reverse] at h3
    simpa using h3
  have h3 := List.dropWhile_eq_nil_iff.mp h2
  intro c hc
  rw [← List.takeWhile_append_dropWhile (p := Char.isWhitespace) (l := s)] at hc
  rcases List.mem_append.mp hc with h4 | h4
  · exact List.mem_takeWhile_imp h4
  · exact h3 c (List.mem_reverse.mpr h4)

theorem splitP_ne_nil (p : Char → Bool) (l : Str) : splitP p l ≠ [] := by
  cases l with
  | nil => simp [splitP]
  | cons c cs =>
    rw [splitP]
    by_cases hp : p c
    · simp [hp]
    · rw [if_neg hp]
      split
      · simp
      · simp

theorem splitP_mem_mem (p : Char → Bool) (l : Str) :
    ∀ piece ∈ splitP p l, ∀ c ∈ piece, c ∈ l := by
  induction l with
  | nil =>
    intro piece hp c hc
    simp only [splitP, List.mem_singleton] at hp
    subst hp
    simp at hc
  | cons a as ih =>
    intro piece hp c hc
    rw [splitP] at hp
    by_cases hpa : p a
    · rw [if_pos hpa] at hp
      rcases List.mem_cons.mp hp with rfl | hmem
      · simp at hc
      · exact List.mem_cons_of_mem a (ih piece hmem c hc)
    · rw [if_neg hpa] at hp
      split at hp
      · rcases List.mem_singleton.mp hp with rfl
        rcases List.mem_singleton.mp hc with rfl
        exact List.mem_cons_self _ _
      · rename_i h t heq
        rcases List.mem_cons.mp hp with rfl | hmem
        · rcases List.mem_cons.mp hc with rfl | hch
          · exact List.mem_cons_self _ _
          · exact List.mem_cons_of_mem a
              (ih h (by rw [heq]; exact List.mem_cons_self _ _) c hch)
        · exact List.mem_cons_of_mem a
            (ih piece (by rw [heq]; exact List.mem_cons_of_mem _ hmem) c hc)

theorem sentencesOf_nil_of_ws (language : String) (text : Str)
    (h : ∀ c ∈ text, Char.isWhitespace c = true) :
    sentencesOf language text = [] := by
  unfold sentencesOf
  rw [List.filter_eq_nil_iff]
  intro piece hpiece
  have hall : ∀ c ∈ piece, Char.isWhitespace c = true :=
    fun c hc => h c (splitP_mem_mem _ _ piece hpiece c hc)
  have htr : trimL piece = [] := trimL_eq_nil piece hall
  simp [htr]

/-- Claim C7: an input whose sentence split yields a single sentence unit
longer than `chunkSize` is not split further — it becomes its own single
(oversized) chunk; and empty or whitespace-only input yields an empty
chunk sequence. -/
theorem chunkText_edge_cases (language : String) (chunkSize chunkOverlap : ℕ) :
    (∀ text s, sentencesOf language text = [s] →
      (trimL s).length > chunkSize →
      chunkText language chunkSize chunkOverlap text = [trimL s]) ∧
    (∀ text, trimL text = [] →
      chunkText language chunkSize chunkOverlap text = []) := by
  constructor
  · intro text s hsent hlen
    have hne : trimL s ≠ [] := by
      intro h0
      rw [h0] at hlen
      simp at hlen
    have hstep : chunkStep chunkSize chunkOverlap ⟨[], []⟩ s = ⟨trimL s, []⟩ := by
      rw [chunkStep, if_neg hne,
        if_neg (show ¬((((⟨[], []⟩ : ChunkState).cur ++ trimL s).length >
          chunkSize) ∧ (⟨[], []⟩ : ChunkState).cur.length > 0) by simp)]
      simp
    unfold chunkText
    rw [hsent]
    simp only [List.foldl_cons, List.foldl_nil]
    rw [hstep]
    simp only [trimL_idem]
    rw [if_pos (show (trimL s).length > 0 by omega)]
    simp
  · intro text htext
    have hsent : sentencesOf language text = [] :=
      sentencesOf_nil_of_ws language text (all_ws_of_trimL_nil text htext)
    unfold chunkText
    rw [hsent]
    simp [trimL]

/-- Witness for C7 at concrete inputs: `"abcd"` is a single sentence of
length 4 > chunkSize 2 and becomes one chunk; `"  "` is whitespace-only
and yields no chunks. -/
theorem chunkText_edge_cases_witness :
    chunkText "ja" 2 50 "abcd".toList = ["abcd".toList] ∧
    chunkText "ja" 2 50 "  ".toList = [] := by
  constructor
  · have h := (chunkText_edge_cases "ja" 2 50).1 "abcd".toList "abcd".toList
      (by decide) (by decide)
    rw [h]
    decide
  · exact (chunkText_edge_cases "ja" 2 50).2 "  ".toList (by decide)

/-! ### Claim C4: search result ordering and stability -/

theorem sortLe_total (a b : SearchResult) : (sortLe a b || sortLe b a) = true := by
  unfold sortLe
  rcases a.score with qa | _ | _ | _ <;> rcases b.score with qb | _ | _ | _ <;>
      simp [JSVal.sub, JSVal.isPos, sub_nonpos]
  exact le_total qb qa

theorem isNum_exists {v : JSVal} (h : v.isNum = true) : ∃ q, v = .num q := by
  rcases v with q | _ | _ | _
  · exact ⟨q, rfl⟩
  all_goals exact absurd h (by simp [JSVal.isNum])

theorem sortLe_trans_num {a b c : SearchResult} (ha : a.score.isNum = true)
    (hb : b.score.isNum = true) (hc : c.score.isNum = true)
    (hab : sortLe a b = true) (hbc : sortLe b c = true) :
    sortLe a c = true := by
  obtain ⟨qa, hA⟩ := isNum_exists ha
  obtain ⟨qb, hB⟩ := isNum_exists hb
  obtain ⟨qc, hC⟩ := isNum_exists hc
  unfold sortLe at hab hbc ⊢
  rw [hA, hB] at hab
  rw [hB, hC] at hbc
  rw [hA, hC]
  simp only [JSVal.sub, JSVal.isPos, Bool.not_eq_true', decide_eq_false_iff_not,
    not_lt, sub_nonpos] at hab hbc ⊢
  linarith

theorem sortLe_of_eq_score {a b : SearchResult} (h : a.score = b.score) :
    sortLe a b = true := by
  unfold sortLe
  rw [h]
  rcases b.score with q | _ | _ | _ <;> simp [JSVal.sub, JSVal.isPos]

theorem mergeSort_sorted_of_num (l : List SearchResult)
    (h : ∀ x ∈ l, x.score.isNum = true) :
    (l.mergeSort sortLe).Pairwise (fun a b => sortLe a b = true) := by
  have trans : ∀ a b c : {x // x ∈ l},
      (fun a b : {x // x ∈ l} => sortLe a.1 b.1) a b →
      (fun a b : {x // x ∈ l} => sortLe a.1 b.1) b c →
      (fun a b : {x // x ∈ l} => sortLe a.1 b.1) a c :=
    fun a b c hab hbc =>
      sortLe_trans_num (h _ a.2) (h _ b.2) (h _ c.2) hab hbc
  have total : ∀ a b : {x // x ∈ l},
      ((fun a b : {x // x ∈ l} => sortLe a.1 b.1) a b ||
       (fun a b : {x // x ∈ l} => sortLe a.1 b.1) b a) = true :=
    fun a b => sortLe_total a.1 b.1
  have hs := List.sorted_mergeSort trans total l.attach
  have hmap := List.map_mergeSort (f := Subtype.val)
    (s := sortLe) (l := l.attach) (fun a _ b _ => rfl)
  rw [List.attach_map_subtype_val] at hmap
  rw [← hmap]
  exact hs.map Subtype.val (fun a b hab => hab)

theorem mergeSort_stable_of_num (l : List SearchResult)
    (h : ∀ x ∈ l, x.score.isNum = true) (a b : SearchResult)
    (hab : a.score = b.score) (hsub : List.Sublist [a, b] l) :
    List.Sublist [a, b] (l.mergeSort sortLe) := by
  have trans : ∀ x y z : {v // v ∈ l},
      (fun x y : {v // v ∈ l} => sortLe x.1 y.1) x y →
      (fun x y : {v // v ∈ l} => sortLe x.1 y.1) y z →
      (fun x y : {v // v ∈ l} => sortLe x.1 y.1) x z :=
    fun x y z hxy hyz =>
      sortLe_trans_num (h _ x.2) (h _ y.2) (h _ z.2) hxy hyz
  have total : ∀ x y : {v // v ∈ l},
      ((fun x y : {v // v ∈ l} => sortLe x.1 y.1) x y ||
       (fun x y : {v // v ∈ l} => sortLe x.1 y.1) y x) = true :=
    fun x y => sortLe_total x.1 y.1
  have hsub2 : List.Sublist [a, b] (l.attach.map Subtype.val) := by
    rw [List.attach_map_subtype_val]
    exact hsub
  obtain ⟨l2, hl2, hmapeq⟩ := List.sublist_map_iff.mp hsub2
  rcases l2 with _ | ⟨x, _ | ⟨y, _ | _⟩⟩ <;> simp only [List.map] at hmapeq
  · exact absurd hmapeq (by simp)
  · exact absurd hmapeq (by simp)
  · rw [List.cons.injEq, List.cons.injEq] at hmapeq
    obtain ⟨hx, hy, -⟩ := hmapeq
    have hxy : sortLe x.1 y.1 = true :=
      sortLe_of_eq_score (by rw [← hx, ← hy]; exact hab)
    have hpair := List.pair_sublist_mergeSort trans total hxy hl2
    have hmap := List.map_mergeSort (f := Subtype.val)
      (s := sortLe) (l := l.attach) (fun u _ v _ => rfl)
    rw [List.attach_map_subtype_val] at hmap
    have := hpair.map Subtype.val
    rw [hmap] at this
    simpa [← hx, ← hy] using this
  · exact absurd hmapeq (by simp)

/-- Claim C4: for a loaded knowledge base with N chunks, a successfully
embedded query and any topK, `searchRelevantChunks` returns the scored
chunks sorted descending by score, truncated to `min topK N` results — in
particular the empty sequence, without failing, when N = 0 — with ties
between equal scores broken by the chunks' original insertion order
(`Array.prototype.sort` is stable, modelled by a stable merge sort).  The
ordering statements assume every computed score is a finite number
(`NaN`-free scores), which is how the spec's "descending by score" is
meaningful. -/
theorem searchRelevantChunks_spec (f : ℚ → ℚ) (kb : List Chunk) (qe : List ℚ)
    (topK : ℕ)
    (hnum : ∀ x ∈ scoredOf f qe kb, x.score.isNum = true) :
    (searchRelevantChunks f true kb (some qe) topK).length = min topK kb.length ∧
    (kb = [] → searchRelevantChunks f true kb (some qe) topK = []) ∧
    searchRelevantChunks f true kb (some qe) topK =
      ((scoredOf f qe kb).mergeSort sortLe).take topK ∧
    ((scoredOf f qe kb).mergeSort sortLe).Pairwise
      (fun a b => ∀ qa qb, a.score = .num qa → b.score = .num qb → qb ≤ qa) ∧
    (∀ a b : SearchResult, a.score = b.score →
      List.Sublist [a, b] (scoredOf f qe kb) →
      List.Sublist [a, b] ((scoredOf f qe kb).mergeSort sortLe)) := by
  have h3 : searchRelevantChunks f true kb (some qe) topK =
      ((scoredOf f qe kb).mergeSort sortLe).take topK := by
    rcases kb with _ | ⟨c, cs⟩
    · simp [searchRelevantChunks, scoredOf]
    · simp [searchRelevantChunks]
  refine ⟨?_, ?_, h3, ?_, ?_⟩
  · rw [h3, List.length_take, List.length_mergeSort]
    simp [scoredOf]
  · rintro rfl
    simp [searchRelevantChunks]
  · have hs := mergeSort_sorted_of_num (scoredOf f qe kb) hnum
    refine hs.imp ?_
    intro a b hab qa qb hqa hqb
    unfold sortLe at hab
    rw [hqa, hqb] at hab
    simp only [JSVal.sub, JSVal.isPos, Bool.not_eq_true',
      decide_eq_false_iff_not, not_lt, sub_nonpos] at hab
    exact hab
  · intro a b hab hsub
    exact mergeSort_stable_of_num _ hnum a b hab hsub

/-- Witness for C4 at a concrete two-chunk knowledge base: the scores are
the finite numbers 1 and 1/2, and the search returns `min 3 2 = 2`
results. -/
theorem searchRelevantChunks_spec_witness :
    (searchRelevantChunks id true [⟨"a", some [1]⟩, ⟨"b", some [2]⟩]
        (some [1]) 3).length = min 3 2 := by
  have hsc : scoredOf id [1] [⟨"a", some [1]⟩, ⟨"b", some [2]⟩] =
      [⟨"a", .num 1⟩, ⟨"b", .num (1/2)⟩] := by
    have h1 : dotP [(1 : ℚ)] [1] = 1 := by norm_num [dotP]
    have h2 : dotP [(1 : ℚ)] [2] = 2 := by norm_num [dotP]
    have h4 : dotP [(2 : ℚ)] [2] = 4 := by norm_num [dotP]
    simp [scoredOf, cosineSimilarity, h1, h2, h4, jsDiv]
    norm_num
  have hnum : ∀ x ∈ scoredOf id [1] [⟨"a", some [1]⟩, ⟨"b", some [2]⟩],
      x.score.isNum = true := by
    rw [hsc]
    intro x hx
    rcases List.mem_cons.mp hx with rfl | hx
    · rfl
    · rcases List.mem_singleton.mp hx with rfl
      rfl
  exact (searchRelevantChunks_spec id [⟨"a", some [1]⟩, ⟨"b", some [2]⟩]
    [1] 3 hnum).1

end RagSpec
